import Mathlib

/-!
Verification of the ronkathon binary tower field engine and of the BLS
signature helper routines.

The binary tower engine (`BinaryField`, `BinaryTowers` and their operations)
is modelled from the specification of the repository, since the repository
sources at hand contain only its test suite
(`src/field/binary_towers/tests.rs`); every such definition carries a
doc comment starting with `Modelled from the spec:`.  The concrete
multiplication, division and embedding vectors appearing in the test suite
pin the model down: they are proved below exactly as the tests state them.

The byte-string codec (`i2osp`, `os2ip`) and signature aggregation
(`BlsSignature.aggregate`) are translated directly from
`src/signatures/bls.rs`.  Machine integers (`usize`, `u8`) are modelled as
natural numbers; bytes are the residues modulo 256 the code computes.
-/

/-- Modelled from the spec: the base field of height 0 with two elements
(`BinaryField` in the missing `src/field/binary_towers` module). -/
inductive BinaryField
  | Zero
  | One
deriving DecidableEq, Repr

/-- Modelled from the spec: base-field addition is XOR. -/
def BinaryField.add : BinaryField → BinaryField → BinaryField
  | .Zero, b => b
  | .One, .Zero => .One
  | .One, .One => .Zero

/-- Modelled from the spec: base-field multiplication is AND. -/
def BinaryField.mul : BinaryField → BinaryField → BinaryField
  | .One, .One => .One
  | _, _ => .Zero

/-- Modelled from the spec: negation is the identity in characteristic 2. -/
def BinaryField.neg (a : BinaryField) : BinaryField := a

/-- Modelled from the spec: `inverse` returns ONE on ONE and fails (no
result) on ZERO; the failure is a typed `Option` value. -/
def BinaryField.inverse : BinaryField → Option BinaryField
  | .Zero => none
  | .One => some .One

/-- Modelled from the spec: construction from an integer keeps only the low
bit, odd values map to ONE and even values to ZERO. -/
def BinaryField.fromInteger (n : Nat) : BinaryField :=
  if n % 2 = 1 then .One else .Zero

/-- Modelled from the spec: base-field division multiplies by the inverse
and fails exactly when the inverse fails. -/
def BinaryField.div (a b : BinaryField) : Option BinaryField :=
  (BinaryField.inverse b).map (fun bi => BinaryField.mul a bi)

/-- Boolean value of a base-field element, used to state the XOR/AND
contract of the bit field. -/
def BinaryField.toBool : BinaryField → Bool
  | .Zero => false
  | .One => true

/-- Natural-number value of a base-field element. -/
def BinaryField.toNat : BinaryField → Nat
  | .Zero => 0
  | .One => 1

/-- Modelled from the spec: a tower element of height 0 is a base-field
element; a tower element of height h+1 is an ordered pair
(low, high) of height-h elements (`BinaryTowers<K>` in the missing
`src/field/binary_towers` module). -/
def BinaryTowers : Nat → Type
  | 0 => BinaryField
  | h+1 => BinaryTowers h × BinaryTowers h

/-- Decidable equality of tower elements, level by level. -/
def instDecidableEqBinaryTowers : (h : Nat) → DecidableEq (BinaryTowers h)
  | 0 => inferInstanceAs (DecidableEq BinaryField)
  | h+1 =>
    letI := instDecidableEqBinaryTowers h
    inferInstanceAs (DecidableEq (BinaryTowers h × BinaryTowers h))

attribute [instance] instDecidableEqBinaryTowers

/-- Modelled from the spec: ZERO at height h+1 is the pair of the ZEROs
below. -/
def BinaryTowers.zero : (h : Nat) → BinaryTowers h
  | 0 => .Zero
  | h+1 => (BinaryTowers.zero h, BinaryTowers.zero h)

/-- Modelled from the spec: ONE at height h+1 is the pair (ONE, ZERO). -/
def BinaryTowers.one : (h : Nat) → BinaryTowers h
  | 0 => .One
  | h+1 => (BinaryTowers.one h, BinaryTowers.zero h)

/-- Modelled from the spec: the previous level's tower generator, as an
element of height h.  At height 0 it is the multiplicative identity
(the spec defines the generator of level -1 that way); at height h+1 it is
the adjoined generator of level h, the pair (ZERO, ONE). -/
def BinaryTowers.tauPrev : (h : Nat) → BinaryTowers h
  | 0 => .One
  | h+1 => (BinaryTowers.zero h, BinaryTowers.one h)

/-- Modelled from the spec: addition is coefficient-wise XOR, recursing
into both components. -/
def BinaryTowers.add : (h : Nat) → BinaryTowers h → BinaryTowers h → BinaryTowers h
  | 0, a, b => BinaryField.add a b
  | h+1, a, b => (BinaryTowers.add h a.1 b.1, BinaryTowers.add h a.2 b.2)

/-- Modelled from the spec: subtraction is identical to addition in
characteristic 2. -/
def BinaryTowers.sub (h : Nat) (a b : BinaryTowers h) : BinaryTowers h :=
  BinaryTowers.add h a b

/-- Modelled from the spec: negation is the identity. -/
def BinaryTowers.neg (h : Nat) (a : BinaryTowers h) : BinaryTowers h := a

/-- Modelled from the spec: recursive Karatsuba-style three-multiplication
of the tower engine.  Writing a = (a0, a1) and b = (b0, b1), the three
sub-products are z0 = a0*b0, z2 = a1*b1 and the cross product
(a0+a1)*(b0+b1); the defining relation of the adjoined generator,
tau^2 = tau * tauPrev + 1, folds z2 into the low component and
z2 * tauPrev into the high component.  This reproduces every concrete
multiplication vector of `src/field/binary_towers/tests.rs`, which is
proved below. -/
def BinaryTowers.mul : (h : Nat) → BinaryTowers h → BinaryTowers h → BinaryTowers h
  | 0, a, b => BinaryField.mul a b
  | h+1, a, b =>
    let z0 := BinaryTowers.mul h a.1 b.1
    let z2 := BinaryTowers.mul h a.2 b.2
    let cross := BinaryTowers.mul h (BinaryTowers.add h a.1 a.2) (BinaryTowers.add h b.1 b.2)
    (BinaryTowers.add h z0 z2,
     BinaryTowers.add h (BinaryTowers.add h (BinaryTowers.add h cross z0) z2)
       (BinaryTowers.mul h z2 (BinaryTowers.tauPrev h)))

/-- Modelled from the spec: square-and-multiply exponentiation.  The
exponent halves at every step; the first argument is structural fuel (the
exponent itself suffices) so that the recursion is structural and the
definition evaluates inside the kernel. -/
def BinaryTowers.powAux (h : Nat) (a : BinaryTowers h) : Nat → Nat → BinaryTowers h
  | 0, _ => BinaryTowers.one h
  | _+1, 0 => BinaryTowers.one h
  | fuel+1, n+1 =>
    let r := BinaryTowers.powAux h a fuel ((n+1)/2)
    if (n+1) % 2 = 0 then BinaryTowers.mul h r r
    else BinaryTowers.mul h (BinaryTowers.mul h r r) a

/-- Modelled from the spec: `pow(a, n)` by square-and-multiply. -/
def BinaryTowers.pow (h : Nat) (a : BinaryTowers h) (n : Nat) : BinaryTowers h :=
  BinaryTowers.powAux h a n n

/-- Modelled from the spec: `inverse` fails (returns no result) on ZERO and
otherwise raises to the power ORDER - 2 where ORDER = 2^(2^h). -/
def BinaryTowers.inverse : (h : Nat) → BinaryTowers h → Option (BinaryTowers h)
  | 0, a => BinaryField.inverse a
  | h+1, a =>
    if a = BinaryTowers.zero (h+1) then none
    else some (BinaryTowers.pow (h+1) a (2^(2^(h+1)) - 2))

/-- Modelled from the spec: `div(a, b) = mul(a, inverse(b))`, failing with
the same typed condition as `inverse` when b is ZERO. -/
def BinaryTowers.div (h : Nat) (a b : BinaryTowers h) : Option (BinaryTowers h) :=
  (BinaryTowers.inverse h b).map (fun bi => BinaryTowers.mul h a bi)

/-- Modelled from the spec: `rem(a, b) = sub(a, mul(div(a, b), b))`,
failing whenever the division fails. -/
def BinaryTowers.rem (h : Nat) (a b : BinaryTowers h) : Option (BinaryTowers h) :=
  (BinaryTowers.div h a b).map (fun q => BinaryTowers.sub h a (BinaryTowers.mul h q b))

/-- Modelled from the spec: decoding an unsigned integer takes the low
2^h bits, the low half of the bits giving the low component; bits beyond
the field's width are silently discarded. -/
def BinaryTowers.fromInteger : (h : Nat) → Nat → BinaryTowers h
  | 0, n => BinaryField.fromInteger n
  | h+1, n =>
    (BinaryTowers.fromInteger h (n % 2^(2^h)), BinaryTowers.fromInteger h (n / 2^(2^h)))

/-- Modelled from the spec: the integer encoding composes the bit sequence
back, the high component giving the most significant bits. -/
def BinaryTowers.toInteger : (h : Nat) → BinaryTowers h → Nat
  | 0, a => BinaryField.toNat a
  | h+1, a =>
    BinaryTowers.toInteger h a.2 * 2^(2^h) + BinaryTowers.toInteger h a.1

/-- Modelled from the spec: `split` decomposes a height-(h+1) element into
its (low, high) pair of height-h elements. -/
def BinaryTowers.split (h : Nat) (a : BinaryTowers (h+1)) :
    BinaryTowers h × BinaryTowers h :=
  (a.1, a.2)

/-- Modelled from the spec: `join` recomposes the (low, high) pair into a
height-(h+1) element; it is the inverse of `split`. -/
def BinaryTowers.join (h : Nat) (lo hi : BinaryTowers h) : BinaryTowers (h+1) :=
  (lo, hi)

/-- Modelled from the spec: embedding of a height-M element into height
M + d, zero-padding all higher coefficients. -/
def BinaryTowers.embed (M : Nat) : (d : Nat) → BinaryTowers M → BinaryTowers (M + d)
  | 0, b => b
  | d+1, b => (BinaryTowers.embed M d b, BinaryTowers.zero (M + d))

/-- Modelled from the spec: small-by-large multiplication of a height-(M+d)
element by a height-M element embeds the smaller operand and applies
ordinary multiplication at the larger height. -/
def BinaryTowers.mulBySmaller (M d : Nat) (a : BinaryTowers (M + d)) (b : BinaryTowers M) :
    BinaryTowers (M + d) :=
  BinaryTowers.mul (M + d) a (BinaryTowers.embed M d b)

/-- Modelled from the spec: a smaller-height receiver multiplied by a
larger-height operand returns the receiver unchanged; this is the
documented asymmetric policy of the cross-height multiplication. -/
def BinaryTowers.mulByLarger (M N : Nat) (b : BinaryTowers M)
    (_a : BinaryTowers N) : BinaryTowers M :=
  b

/-- Big-endian byte list of `val` filled from the right over `length`
cells, as the loop of `i2osp` in `src/signatures/bls.rs` computes it:
cell i receives the current value modulo 256 and the value is then shifted
right by eight bits for the cell to its left. -/
def i2ospLoop : Nat → Nat → List Nat
  | 0, _ => []
  | length+1, val => i2ospLoop length (val / 256) ++ [val % 256]

/-- Integer-to-octet-string primitive from `src/signatures/bls.rs`: fails
when `x` does not fit in `length` octets, otherwise returns the big-endian
encoding of `x` padded to exactly `length` bytes. -/
def i2osp (x length : Nat) : Except String (List Nat) :=
  if 2^(8 * length) ≤ x then
    .error s!"Integer too large to encode in {length} octets"
  else
    .ok (i2ospLoop length x)

/-- Octet-string-to-integer primitive from `src/signatures/bls.rs`: folds
the bytes big-endian into an integer; it never fails. -/
def os2ip (octets : List Nat) : Except String Nat :=
  .ok (octets.foldl (fun ret byte => ret * 256 + byte) 0)

/-- Signature aggregation from `src/signatures/bls.rs`: fails on an empty
slice, otherwise sums the signature points left to right starting from the
first one.  The point type and its addition are abstract here, since the
curve arithmetic lives outside the tower engine sources. -/
def BlsSignature.aggregate {G : Type} (add : G → G → G)
    (signatures : List G) : Except String G :=
  match signatures with
  | [] => .error "No signatures to aggregate"
  | s :: rest => .ok (rest.foldl add s)

/-- Adding an element to itself gives ZERO at every height. -/
theorem BinaryTowers.add_self_eq_zero :
    ∀ (h : Nat) (a : BinaryTowers h), BinaryTowers.add h a a = BinaryTowers.zero h := by
  intro h
  induction h with
  | zero => intro a; cases a <;> rfl
  | succ h ih => intro a; exact Prod.ext (ih a.1) (ih a.2)

/-- Addition is commutative at every height. -/
theorem BinaryTowers.add_commutative :
    ∀ (h : Nat) (a b : BinaryTowers h), BinaryTowers.add h a b = BinaryTowers.add h b a := by
  intro h
  induction h with
  | zero => intro a b; cases a <;> cases b <;> rfl
  | succ h ih => intro a b; exact Prod.ext (ih a.1 b.1) (ih a.2 b.2)

/-- The integer encoding of a height-h element is below the field order. -/
theorem BinaryTowers.toInteger_lt :
    ∀ (h : Nat) (a : BinaryTowers h), BinaryTowers.toInteger h a < 2^(2^h) := by
  intro h
  induction h with
  | zero => intro a; cases a <;> decide
  | succ h ih =>
    intro a
    have h1 := ih a.1
    have h2 := ih a.2
    have hexp : 2^(2^(h+1)) = 2^(2^h) * 2^(2^h) := by rw [pow_succ, pow_mul, sq]
    show BinaryTowers.toInteger h a.2 * 2^(2^h) + BinaryTowers.toInteger h a.1 < 2^(2^(h+1))
    rw [hexp]
    calc
      BinaryTowers.toInteger h a.2 * 2^(2^h) + BinaryTowers.toInteger h a.1
          < BinaryTowers.toInteger h a.2 * 2^(2^h) + 2^(2^h) :=
        Nat.add_lt_add_left h1 _
      _ = (BinaryTowers.toInteger h a.2 + 1) * 2^(2^h) := by ring
      _ ≤ 2^(2^h) * 2^(2^h) := mul_le_mul_right' (Nat.succ_le_of_lt h2) _

/-- Decoding the encoding of an element recovers the element. -/
theorem BinaryTowers.fromInteger_toInteger :
    ∀ (h : Nat) (a : BinaryTowers h),
      BinaryTowers.fromInteger h (BinaryTowers.toInteger h a) = a := by
  intro h
  induction h with
  | zero => intro a; cases a <;> rfl
  | succ h ih =>
    intro a
    have h1 := BinaryTowers.toInteger_lt h a.1
    have hB : 0 < 2^(2^h) := pow_pos (by norm_num) _
    have hmod : (BinaryTowers.toInteger h a.2 * 2^(2^h) + BinaryTowers.toInteger h a.1) % 2^(2^h)
        = BinaryTowers.toInteger h a.1 := by
      rw [Nat.mul_add_mod']
      exact Nat.mod_eq_of_lt h1
    have hdiv : (BinaryTowers.toInteger h a.2 * 2^(2^h) + BinaryTowers.toInteger h a.1) / 2^(2^h)
        = BinaryTowers.toInteger h a.2 := by
      rw [Nat.add_comm, Nat.add_mul_div_right _ _ hB, Nat.div_eq_of_lt h1, Nat.zero_add]
    show (BinaryTowers.fromInteger h
            ((BinaryTowers.toInteger h a.2 * 2^(2^h) + BinaryTowers.toInteger h a.1) % 2^(2^h)),
          BinaryTowers.fromInteger h
            ((BinaryTowers.toInteger h a.2 * 2^(2^h) + BinaryTowers.toInteger h a.1) / 2^(2^h))) = a
    rw [hmod, hdiv, ih a.1, ih a.2]
    exact Prod.mk.eta

/-- Encoding a decoded integer gives the integer reduced modulo the field
order. -/
theorem BinaryTowers.toInteger_fromInteger :
    ∀ (h n : Nat), BinaryTowers.toInteger h (BinaryTowers.fromInteger h n) = n % 2^(2^h) := by
  intro h
  induction h with
  | zero =>
    intro n
    show BinaryField.toNat (BinaryField.fromInteger n) = n % 2^(2^0)
    rcases Nat.mod_two_eq_zero_or_one n with hm | hm <;>
      simp [BinaryField.fromInteger, BinaryField.toNat, hm, pow_succ]
  | succ h ih =>
    intro n
    have hexp : 2^(2^(h+1)) = 2^(2^h) * 2^(2^h) := by rw [pow_succ, pow_mul, sq]
    show BinaryTowers.toInteger h (BinaryTowers.fromInteger h (n / 2^(2^h))) * 2^(2^h)
        + BinaryTowers.toInteger h (BinaryTowers.fromInteger h (n % 2^(2^h))) = n % 2^(2^(h+1))
    rw [ih, ih, Nat.mod_mod_of_dvd n (dvd_refl _), hexp, Nat.mod_mul]
    ring

/-- Decoding the integer 0 gives ZERO at every height. -/
theorem BinaryTowers.fromInteger_zero :
    ∀ (h : Nat), BinaryTowers.fromInteger h 0 = BinaryTowers.zero h := by
  intro h
  induction h with
  | zero => rfl
  | succ h ih =>
    show (BinaryTowers.fromInteger h (0 % 2^(2^h)), BinaryTowers.fromInteger h (0 / 2^(2^h)))
        = (BinaryTowers.zero h, BinaryTowers.zero h)
    rw [Nat.zero_mod, Nat.zero_div, ih]

/-- The zero-padding embedding agrees with decoding the smaller element's
integer value at the larger height. -/
theorem BinaryTowers.embed_eq_fromInteger :
    ∀ (M d : Nat) (b : BinaryTowers M),
      BinaryTowers.embed M d b
        = BinaryTowers.fromInteger (M + d) (BinaryTowers.toInteger M b) := by
  intro M d
  induction d with
  | zero => intro b; exact (BinaryTowers.fromInteger_toInteger M b).symm
  | succ d ih =>
    intro b
    have hle : 2^(2^M) ≤ 2^(2^(M + d)) :=
      Nat.pow_le_pow_right (by norm_num)
        (Nat.pow_le_pow_right (by norm_num) (Nat.le_add_right M d))
    have hlt : BinaryTowers.toInteger M b < 2^(2^(M + d)) :=
      lt_of_lt_of_le (BinaryTowers.toInteger_lt M b) hle
    show (BinaryTowers.embed M d b, BinaryTowers.zero (M + d))
        = (BinaryTowers.fromInteger (M + d) (BinaryTowers.toInteger M b % 2^(2^(M + d))),
           BinaryTowers.fromInteger (M + d) (BinaryTowers.toInteger M b / 2^(2^(M + d))))
    rw [Nat.mod_eq_of_lt hlt, Nat.div_eq_of_lt hlt, BinaryTowers.fromInteger_zero, ih]

/-- Inverting ZERO fails at every height. -/
theorem BinaryTowers.inverse_zero_eq_none :
    ∀ (h : Nat), BinaryTowers.inverse h (BinaryTowers.zero h) = none := by
  intro h
  cases h with
  | zero => rfl
  | succ h => simp [BinaryTowers.inverse]

/-- Dividing by ZERO fails at every height. -/
theorem BinaryTowers.div_zero_eq_none :
    ∀ (h : Nat) (a : BinaryTowers h), BinaryTowers.div h a (BinaryTowers.zero h) = none := by
  intro h a
  show (BinaryTowers.inverse h (BinaryTowers.zero h)).map _ = none
  rw [BinaryTowers.inverse_zero_eq_none]
  rfl

/-- The loop of i2osp always produces exactly as many bytes as requested. -/
theorem i2ospLoop_length : ∀ (L v : Nat), (i2ospLoop L v).length = L := by
  intro L
  induction L with
  | zero => intro v; rfl
  | succ L ih =>
    intro v
    show (i2ospLoop L (v / 256) ++ [v % 256]).length = L + 1
    simp [ih]

/-- Folding the bytes of the i2osp loop big-endian recovers the value
modulo 256 to the byte count, on top of the shifted accumulator. -/
theorem i2ospLoop_foldl :
    ∀ (L acc v : Nat),
      (i2ospLoop L v).foldl (fun ret byte => ret * 256 + byte) acc
        = acc * 256^L + v % 256^L := by
  intro L
  induction L with
  | zero => intro acc v; simp [i2ospLoop, Nat.mod_one]
  | succ L ih =>
    intro acc v
    show (i2ospLoop L (v / 256) ++ [v % 256]).foldl (fun ret byte => ret * 256 + byte) acc
        = acc * 256^(L+1) + v % 256^(L+1)
    rw [List.foldl_append]
    simp only [List.foldl_cons, List.foldl_nil]
    rw [ih]
    have hm : v % 256^(L+1) = v % 256 + 256 * (v / 256 % 256^L) := by
      rw [pow_succ', Nat.mod_mul]
    rw [hm, pow_succ]
    ring

/-- Byte i of the i2osp loop output is the big-endian byte of the value. -/
theorem i2ospLoop_getD :
    ∀ (L v i : Nat), i < L →
      (i2ospLoop L v).getD i 0 = v / 256^(L - 1 - i) % 256 := by
  intro L
  induction L with
  | zero => intro v i hi; exact absurd hi (Nat.not_lt_zero i)
  | succ L ih =>
    intro v i hi
    show (i2ospLoop L (v / 256) ++ [v % 256]).getD i 0 = v / 256^(L + 1 - 1 - i) % 256
    by_cases hiL : i < L
    · rw [List.getD_append _ _ _ _ (by rw [i2ospLoop_length]; exact hiL)]
      rw [ih (v / 256) i hiL, Nat.div_div_eq_div_mul]
      have hexp : 256 * 256^(L - 1 - i) = 256^(L + 1 - 1 - i) := by
        rw [← pow_succ']
        congr 1
        omega
      rw [hexp]
    · have hieq : i = L := by omega
      subst hieq
      rw [List.getD_append_right _ _ _ _ (by simp [i2ospLoop_length])]
      rw [i2ospLoop_length]
      simp

/-- C1: multiplying a height-(M+d+1) element a by a height-M element b via
the small-by-large policy equals full-width multiplication of a by the
larger-height element decoded from b's integer value. -/
theorem BinaryTowers.mulBySmaller_eq_mul_fromInteger
    (M d : Nat) (a : BinaryTowers (M + (d+1))) (b : BinaryTowers M) :
    BinaryTowers.mulBySmaller M (d+1) a b
      = BinaryTowers.mul (M + (d+1)) a
          (BinaryTowers.fromInteger (M + (d+1)) (BinaryTowers.toInteger M b)) := by
  show BinaryTowers.mul (M + (d+1)) a (BinaryTowers.embed M (d+1) b) = _
  rw [BinaryTowers.embed_eq_fromInteger]

/-- C2: a smaller-height receiver multiplied by a larger-height operand is
returned unchanged. -/
theorem BinaryTowers.mulByLarger_eq_self
    (M N : Nat) (_hMN : M < N) (b : BinaryTowers M) (a : BinaryTowers N) :
    BinaryTowers.mulByLarger M N b a = b :=
  rfl

/-- Witness for C2 at heights 3 and 5. -/
theorem BinaryTowers.mulByLarger_eq_self_witness :
    BinaryTowers.mulByLarger 3 5 (BinaryTowers.fromInteger 3 23) (BinaryTowers.zero 5)
      = BinaryTowers.fromInteger 3 23 :=
  BinaryTowers.mulByLarger_eq_self 3 5 (by decide)
    (BinaryTowers.fromInteger 3 23) (BinaryTowers.zero 5)

/-- C3: at every height, inverting ZERO fails, and the failure propagates
as a typed optional value through division and remainder: dividing any
element by ZERO fails, as does the remainder built on that division. -/
theorem BinaryTowers.no_inverse_propagation (h : Nat) :
    BinaryTowers.inverse h (BinaryTowers.zero h) = none ∧
    (∀ a : BinaryTowers h, BinaryTowers.div h a (BinaryTowers.zero h) = none) ∧
    (∀ a : BinaryTowers h, BinaryTowers.rem h a (BinaryTowers.zero h) = none) := by
  refine ⟨BinaryTowers.inverse_zero_eq_none h, BinaryTowers.div_zero_eq_none h, fun a => ?_⟩
  show (BinaryTowers.div h a (BinaryTowers.zero h)).map _ = none
  rw [BinaryTowers.div_zero_eq_none h a]
  rfl

/-- C4: decoding the encoding of any element recovers the element, and
encoding a decoded integer reduces it modulo the field order 2^(2^h), the
higher bits being silently discarded. -/
theorem BinaryTowers.integer_codec_roundtrip (h : Nat) :
    (∀ a : BinaryTowers h,
      BinaryTowers.fromInteger h (BinaryTowers.toInteger h a) = a) ∧
    (∀ n : Nat,
      BinaryTowers.toInteger h (BinaryTowers.fromInteger h n) = n % 2^(2^h)) :=
  ⟨BinaryTowers.fromInteger_toInteger h, BinaryTowers.toInteger_fromInteger h⟩

/-- C5: at every height h+1, joining the split of an element recovers the
element, and splitting the join of a (low, high) pair recovers the pair. -/
theorem BinaryTowers.split_join_roundtrip (h : Nat) :
    (∀ a : BinaryTowers (h+1),
      BinaryTowers.join h (BinaryTowers.split h a).1 (BinaryTowers.split h a).2 = a) ∧
    (∀ lo hi : BinaryTowers h,
      BinaryTowers.split h (BinaryTowers.join h lo hi) = (lo, hi)) :=
  ⟨fun _ => Prod.mk.eta, fun _ _ => rfl⟩

/-- C6: the concrete height-3 scenarios of the test suite: the four stated
products with commutativity of the first, and for a = from(160),
b = from(23), the identities (a/b) * (a*b) = a^2 and
(a*b) * (ONE/(a*b)) = ONE. -/
theorem BinaryTowers.height_three_concrete_vectors :
    BinaryTowers.mul 3 (BinaryTowers.fromInteger 3 160) (BinaryTowers.fromInteger 3 23)
      = BinaryTowers.fromInteger 3 90 ∧
    BinaryTowers.mul 3 (BinaryTowers.fromInteger 3 23) (BinaryTowers.fromInteger 3 160)
      = BinaryTowers.fromInteger 3 90 ∧
    BinaryTowers.mul 3 (BinaryTowers.fromInteger 3 217) (BinaryTowers.fromInteger 3 20)
      = BinaryTowers.fromInteger 3 151 ∧
    BinaryTowers.mul 3 (BinaryTowers.fromInteger 3 19) (BinaryTowers.fromInteger 3 230)
      = BinaryTowers.fromInteger 3 3 ∧
    BinaryTowers.mul 3 (BinaryTowers.fromInteger 3 203) (BinaryTowers.fromInteger 3 187)
      = BinaryTowers.fromInteger 3 4 ∧
    (BinaryTowers.div 3 (BinaryTowers.fromInteger 3 160) (BinaryTowers.fromInteger 3 23)).map
        (fun d => BinaryTowers.mul 3 d
          (BinaryTowers.mul 3 (BinaryTowers.fromInteger 3 160) (BinaryTowers.fromInteger 3 23)))
      = some (BinaryTowers.pow 3 (BinaryTowers.fromInteger 3 160) 2) ∧
    (BinaryTowers.div 3 (BinaryTowers.one 3)
        (BinaryTowers.mul 3 (BinaryTowers.fromInteger 3 160)
          (BinaryTowers.fromInteger 3 23))).map
        (fun e => BinaryTowers.mul 3
          (BinaryTowers.mul 3 (BinaryTowers.fromInteger 3 160) (BinaryTowers.fromInteger 3 23)) e)
      = some (BinaryTowers.one 3) := by
  decide

/-- C7: for every height and all elements, adding an element to itself
gives ZERO, addition is commutative, subtraction coincides with addition,
negation is the identity, and a + (-b) = (-a) + b. -/
theorem BinaryTowers.characteristic_two_laws (h : Nat) (a b : BinaryTowers h) :
    BinaryTowers.add h a a = BinaryTowers.zero h ∧
    BinaryTowers.add h a b = BinaryTowers.add h b a ∧
    BinaryTowers.add h a b = BinaryTowers.sub h a b ∧
    a = BinaryTowers.neg h a ∧
    BinaryTowers.add h a (BinaryTowers.neg h b)
      = BinaryTowers.add h (BinaryTowers.neg h a) b :=
  ⟨BinaryTowers.add_self_eq_zero h a, BinaryTowers.add_commutative h a b, rfl, rfl, rfl⟩

/-- C8: the base bit field contract: construction from an integer keeps
only the low bit, addition is XOR, multiplication is AND, negation is the
identity, ONE is its own inverse, ZERO has no inverse, and division by
ZERO fails. -/
theorem BinaryField.bit_field_contract :
    (∀ n : Nat, n % 2 = 1 → BinaryField.fromInteger n = BinaryField.One) ∧
    (∀ n : Nat, n % 2 = 0 → BinaryField.fromInteger n = BinaryField.Zero) ∧
    (∀ a b : BinaryField,
      (BinaryField.add a b).toBool = Bool.xor a.toBool b.toBool) ∧
    (∀ a b : BinaryField,
      (BinaryField.mul a b).toBool = (a.toBool && b.toBool)) ∧
    (∀ a : BinaryField, BinaryField.neg a = a) ∧
    BinaryField.inverse BinaryField.One = some BinaryField.One ∧
    BinaryField.inverse BinaryField.Zero = none ∧
    (∀ a : BinaryField, BinaryField.div a BinaryField.Zero = none) := by
  refine ⟨?_, ?_, ?_, ?_, fun a => rfl, rfl, rfl, fun a => rfl⟩
  · intro n hn; simp [BinaryField.fromInteger, hn]
  · intro n hn; simp [BinaryField.fromInteger, hn]
  · intro a b; cases a <;> cases b <;> rfl
  · intro a b; cases a <;> cases b <;> rfl

/-- Witness for C8 at the inputs 7 and 10. -/
theorem BinaryField.bit_field_contract_witness :
    BinaryField.fromInteger 7 = BinaryField.One ∧
    BinaryField.fromInteger 10 = BinaryField.Zero :=
  ⟨BinaryField.bit_field_contract.1 7 (by decide),
   BinaryField.bit_field_contract.2.1 10 (by decide)⟩

/-- C9: when x fits in L octets, i2osp returns Ok of exactly L bytes, the
big-endian encoding of x, and os2ip decodes them back to x; when x does
not fit, i2osp returns an error; os2ip never fails. -/
theorem i2osp_os2ip_contract (x L : Nat) :
    (x < 2^(8 * L) →
      ∃ bytes : List Nat,
        i2osp x L = Except.ok bytes ∧
        bytes.length = L ∧
        (∀ i : Nat, i < L → bytes.getD i 0 = x / 256^(L - 1 - i) % 256) ∧
        os2ip bytes = Except.ok x) ∧
    (2^(8 * L) ≤ x → ∃ msg : String, i2osp x L = Except.error msg) ∧
    (∀ octets : List Nat, ∃ n : Nat, os2ip octets = Except.ok n) := by
  have h256 : (2:Nat)^(8 * L) = 256^L := by
    rw [Nat.pow_mul]
  refine ⟨?_, ?_, fun octets => ⟨_, rfl⟩⟩
  · intro hx
    refine ⟨i2ospLoop L x, ?_, i2ospLoop_length L x,
      fun i hi => i2ospLoop_getD L x i hi, ?_⟩
    · show (if 2^(8 * L) ≤ x then _ else _) = _
      rw [if_neg (by omega)]
    · show Except.ok ((i2ospLoop L x).foldl (fun ret byte => ret * 256 + byte) 0)
        = Except.ok x
      rw [i2ospLoop_foldl]
      rw [Nat.zero_mul, Nat.zero_add, Nat.mod_eq_of_lt (by rw [← h256]; exact hx)]
  · intro hx
    exact ⟨_, by show (if 2^(8 * L) ≤ x then _ else _) = _; rw [if_pos hx]⟩

/-- Witness for C9 at x = 258 and L = 2. -/
theorem i2osp_os2ip_contract_witness :
    i2osp 258 2 = Except.ok [1, 2] ∧ os2ip [1, 2] = Except.ok 258 := by
  obtain ⟨bytes, hok, hlen, hbe, hrt⟩ := (i2osp_os2ip_contract 258 2).1 (by norm_num)
  have hb : i2osp 258 2 = Except.ok [1, 2] := rfl
  have hbytes : bytes = [1, 2] := by
    rw [hb] at hok
    exact (Except.ok.inj hok).symm
  subst hbytes
  exact ⟨hb, hrt⟩

/-- C10: aggregation fails exactly on the empty list, and on a nonempty
list returns Ok of the left-to-right sum of all the signature points. -/
theorem BlsSignature.aggregate_contract {G : Type} (add : G → G → G)
    (signatures : List G) :
    (signatures = [] →
      BlsSignature.aggregate add signatures
        = Except.error "No signatures to aggregate") ∧
    (∀ (s : G) (rest : List G), signatures = s :: rest →
      BlsSignature.aggregate add signatures = Except.ok (rest.foldl add s)) := by
  constructor
  · intro hempty
    subst hempty
    rfl
  · intro s rest hcons
    subst hcons
    rfl

/-- Witness for C10 on the list [1, 2, 3] with natural-number addition. -/
theorem BlsSignature.aggregate_contract_witness :
    BlsSignature.aggregate Nat.add [1, 2, 3] = Except.ok 6 :=
  (BlsSignature.aggregate_contract Nat.add [1, 2, 3]).2 1 [2, 3] rfl
